import Mathlib

/-!
Verification of the claw-readme generator (src/index.js).

The development shallowly embeds the analysis pipeline of `src/index.js`:
the CLI flag object, the overwrite guard, the GitHub repository detector,
the help-output parser, the static source scanner (regular-expression
pattern matching over source text), the merge engine combining static and
dynamic findings, and the Markdown renderer.

Source text is represented as a list of Unicode code points (`List Nat`);
JavaScript strings are embedded as Lean `String`s where they are data
(names, descriptions, rendered Markdown).  JavaScript `Map`/`Set` objects
are embedded as insertion-ordered association lists / lists with
first-occurrence deduplication, matching their iteration semantics.
-/

namespace ClawReadme

/-- Code points of a string literal. -/
def codes (s : String) : List Nat := s.data.map Char.toNat

/-- Rebuild a string from code points (all code points produced by the
scanners are valid ASCII). -/
def ofCodes (l : List Nat) : String := String.mk (l.map Char.ofNat)

/-- JavaScript `\s` (whitespace) character class, by code point. -/
def isWsCode (n : Nat) : Bool :=
  n = 32 || n = 9 || n = 10 || n = 11 || n = 12 || n = 13 || n = 160 ||
  n = 5760 || (8192 ≤ n && n ≤ 8202) || n = 8232 || n = 8233 || n = 8239 ||
  n = 8287 || n = 12288 || n = 65279

/-- JavaScript `\w` (word) character class: `[A-Za-z0-9_]`. -/
def isWordCode (n : Nat) : Bool :=
  (48 ≤ n && n ≤ 57) || (65 ≤ n && n ≤ 90) || (97 ≤ n && n ≤ 122) || n = 95

/-- ASCII letter, `[a-zA-Z]`. -/
def isLetterCode (n : Nat) : Bool :=
  (65 ≤ n && n ≤ 90) || (97 ≤ n && n ≤ 122)

/-- The three JavaScript quote characters `' " \x60` used in the regex
character class of the scanners. -/
def isQuoteCode (n : Nat) : Bool := n = 39 || n = 34 || n = 96

/-- ASCII uppercase letter code. -/
def isUpperCode (n : Nat) : Bool := 65 ≤ n && n ≤ 90

/-- `String.prototype.toLowerCase` restricted to the ASCII range, applied
to a code point.  All tokens captured by the scanners consist of `\w`
characters, for which this is exact. -/
def lowerCode (n : Nat) : Nat := if isUpperCode n then n + 32 else n

/-- Lowercase a code-point list (model of `toLowerCase` on scanner tokens). -/
def lowerCodes (l : List Nat) : List Nat := l.map lowerCode

/-! ### JavaScript `Map` and `Set` semantics

A `Map` iterates in insertion order; `set` on an existing key updates the
value in place, `set` on a fresh key appends.  A `Set` keeps the first
occurrence of each element. -/

/-- `Map.prototype.set`: update the key's entry in place if it exists
(keeping its position), else append.  A `Map` never holds a key twice, so
the association lists built here always have unique keys and "the key's
entry" is unambiguous. -/
def mapSet : List (String × String) → String → String → List (String × String)
  | [], k, v => [(k, v)]
  | p :: m, k, v => if p.1 = k then (k, v) :: m else p :: mapSet m k v

/-- `Set.prototype.add` over a list of elements: first occurrence kept,
insertion order preserved. -/
def setAddAll (s : List String) (xs : List String) : List String :=
  xs.foldl (fun acc x => if acc.contains x then acc else acc ++ [x]) s

/-! ### Locale-aware string comparison

`Array.prototype.sort((a, b) => a.name.localeCompare(b.name))` compares by
the default Unicode collation (ICU root / `en`): a primary pass that is
case-insensitive (and orders punctuation before digits before letters,
which for ASCII coincides with comparing lowercased code points), and a
tiebreaking pass placing lowercase before uppercase.  We model this by an
injective sort key per string: the lowercased code points, a `0`
separator (primary weights are all positive), then the case bits. -/

/-- Primary collation weight of a code point (lowercased, shifted to be
positive). -/
def chPrim (n : Nat) : Nat := lowerCode n + 1

/-- Tertiary (case) collation weight: uppercase after lowercase. -/
def chCase (n : Nat) : Nat := if isUpperCode n then 1 else 0

/-- Collation sort key of a string. -/
def collationKey (s : String) : List Nat :=
  (codes s).map chPrim ++ 0 :: (codes s).map chCase

/-- Boolean lexicographic order on `List Nat`. -/
def keyLe : List Nat → List Nat → Bool
  | [], _ => true
  | _ :: _, [] => false
  | a :: as, b :: bs => if a < b then true else if b < a then false else keyLe as bs

/-- `localeCompare(a, b) <= 0` for the name components of two records. -/
def recLe (a b : String × String) : Prop :=
  keyLe (collationKey a.1) (collationKey b.1) = true

instance : DecidableRel recLe := fun a b => by unfold recLe; infer_instance

/-- Strict locale order on strings (`localeCompare < 0`). -/
def locLt (a b : String) : Bool :=
  keyLe (collationKey a) (collationKey b) && !(keyLe (collationKey b) (collationKey a))

/-- Ordinal (code-point lexicographic) strict order on strings, the
comparison named by the specification's sort-totality property. -/
def ordLt (a b : String) : Bool :=
  keyLe (codes a) (codes b) && !(keyLe (codes b) (codes a))

/-! ### Merge engine (src/index.js lines 245–264)

```js
const commandMap = new Map();
staticCommands.forEach(cmd => commandMap.set(cmd, ''));
dynamicData.commands.forEach(cmd => commandMap.set(cmd.name, cmd.desc));
analysis.commands = Array.from(commandMap.entries())
  .map(([name, desc]) => ({ name, desc }))
  .sort((a, b) => a.name.localeCompare(b.name));
```
(the flag merge at lines 256–264 is identical). -/

/-- Overlay a list of dynamic records onto a map, last writer wins per key. -/
def overlay (dyn : List (String × String)) (m : List (String × String)) :
    List (String × String) :=
  dyn.foldl (fun acc cd => mapSet acc cd.1 cd.2) m

/-- The merge engine: seed from the static name set with empty
descriptions, overlay the dynamic records, emit entries sorted by
`localeCompare` on names (JavaScript `sort` is stable; so is
`insertionSort`). -/
def mergeEntries (statics : List String) (dyn : List (String × String)) :
    List (String × String) :=
  List.insertionSort recLe
    (overlay dyn (overlay (statics.map (fun c => (c, ""))) []))

/-- Key uniqueness, the `Map` invariant. -/
def keysNodup (m : List (String × String)) : Prop :=
  m.Pairwise (fun a b => a.1 ≠ b.1)

/-- First-match lookup by name, as `Map.prototype.get` after conversion. -/
def lookupName (m : List (String × String)) (n : String) : Option String :=
  (m.find? (fun p => p.1 = n)).map (·.2)

/-- Description of the last occurrence of a name in a dynamic record list
(the one `Map.set` leaves in place). -/
def lastDesc (dyn : List (String × String)) (n : String) : Option String :=
  (dyn.reverse.find? (fun p => p.1 = n)).map (·.2)

/-! ### Regular-expression primitives

The scanners of src/index.js are `RegExp.prototype.exec` loops with the
`g` flag: at each position the engine attempts a match; on success it
resumes after the end of the match, on failure it advances one position.
Each pattern below is implemented as a deterministic parser on code-point
lists; greedy quantifiers are realised by maximal munch, which is exact
here because every quantified class is disjoint from the token that must
follow it (the only needed backtracking, `-{1,2}` and the top-level
alternations, is encoded explicitly). -/

/-- Consume an exact literal. -/
def eatLit : List Nat → List Nat → Option (List Nat)
  | [], cs => some cs
  | _ :: _, [] => none
  | l :: ls, c :: cs => if c = l then eatLit ls cs else none

/-- Consume a single given code point. -/
def eatCode (n : Nat) : List Nat → Option (List Nat)
  | [] => none
  | c :: cs => if c = n then some cs else none

/-- Consume one quote character (`['"\x60]`). -/
def eatQuote : List Nat → Option (List Nat)
  | [] => none
  | c :: cs => if isQuoteCode c then some cs else none

/-- `\s*`: maximal munch of whitespace. -/
def eatWs0 (cs : List Nat) : List Nat := cs.dropWhile isWsCode

/-- `\s+`: at least one whitespace character, maximal munch. -/
def eatWs1 : List Nat → Option (List Nat)
  | [] => none
  | c :: cs => if isWsCode c then some (eatWs0 cs) else none

/-- `p+` for a character class `p`: one-or-more, maximal munch; returns
the consumed token and the remainder. -/
def eatClass1 (p : Nat → Bool) (cs : List Nat) : Option (List Nat × List Nat) :=
  match cs.takeWhile p with
  | [] => none
  | tok => some (tok, cs.dropWhile p)

/-- `===?`: two equals signs then a greedy optional third. -/
def eatEqOp (cs : List Nat) : Option (List Nat) := do
  let r ← eatLit (codes "==") cs
  match r with
  | 61 :: rest => some rest
  | _ => some r

/-- Run a single-position matcher as a global scan: leftmost match, resume
after each match's end (`fuel` bounds the recursion; every successful
match consumes at least one code point, so `length + 1` fuel is exact). -/
def scanAux (m : List Nat → Option (List Nat × List Nat)) :
    Nat → List Nat → List (List Nat)
  | 0, _ => []
  | fuel + 1, cs =>
    match m cs with
    | some (tok, rest) => tok :: scanAux m fuel rest
    | none =>
      match cs with
      | [] => []
      | _ :: t => scanAux m fuel t

/-- All captures of a pattern over a text, left to right. -/
def scanAll (m : List Nat → Option (List Nat × List Nat)) (cs : List Nat) :
    List (List Nat) :=
  scanAux m (cs.length + 1) cs

/-! ### Static source scanner: command patterns (src/index.js 195–210) -/

/-- Pattern `case\s+['"\x60](\w+)['"\x60]\s*:` at the current position. -/
def matchCaseLabel (cs : List Nat) : Option (List Nat × List Nat) := do
  let r1 ← eatLit (codes "case") cs
  let r2 ← eatWs1 r1
  let r3 ← eatQuote r2
  let (tok, r4) ← eatClass1 isWordCode r3
  let r5 ← eatQuote r4
  let r6 ← eatCode 58 (eatWs0 r5)
  some (tok, r6)

/-- Shared tail `\s*===?\s*['"\x60](\w+)['"\x60]` of the equality-style
command patterns. -/
def eqLiteralTail (r : List Nat) : Option (List Nat × List Nat) := do
  let r2 ← eatEqOp (eatWs0 r)
  let r3 ← eatQuote (eatWs0 r2)
  let (tok, r4) ← eatClass1 isWordCode r3
  let r5 ← eatQuote r4
  some (tok, r5)

/-- Pattern `args\[0\]\s*===?\s*['"\x60](\w+)['"\x60]`. -/
def matchArgs0 (cs : List Nat) : Option (List Nat × List Nat) :=
  (eatLit (codes "args[0]") cs).bind eqLiteralTail

/-- Pattern `command\s*===?\s*['"\x60](\w+)['"\x60]`. -/
def matchCommandEq (cs : List Nat) : Option (List Nat × List Nat) :=
  (eatLit (codes "command") cs).bind eqLiteralTail

/-- Pattern `if\s*\(\s*\w+\s*===?\s*['"\x60](\w+)['"\x60]\s*\)`. -/
def matchIfEq (cs : List Nat) : Option (List Nat × List Nat) := do
  let r1 ← eatLit (codes "if") cs
  let r2 ← eatCode 40 (eatWs0 r1)
  let (_, r3) ← eatClass1 isWordCode (eatWs0 r2)
  let (tok, r4) ← eqLiteralTail r3
  let r5 ← eatCode 41 (eatWs0 r4)
  some (tok, r5)

/-- All command-name captures of the four command patterns, in the order
the source iterates the patterns. -/
def commandCandidates (code : List Nat) : List (List Nat) :=
  scanAll matchCaseLabel code ++ scanAll matchArgs0 code ++
    scanAll matchCommandEq code ++ scanAll matchIfEq code

/-- The generic-token stoplist for commands (case-insensitive). -/
def commandStoplist : List String :=
  ["help", "version", "default", "true", "false", "command", "cmd",
   "action", "error", "exit"]

/-- The static command set of a source text: candidates minus stoplisted
tokens, with `Set` (first occurrence) deduplication. -/
def staticCommandsOf (code : List Nat) : List String :=
  setAddAll []
    (((commandCandidates code).filter (fun tok =>
        !tok.isEmpty && !(commandStoplist.contains (ofCodes (lowerCodes tok))))).map
      ofCodes)

/-! ### Static source scanner: flag patterns (src/index.js 213–233) -/

/-- `[\w-]`, the character class of a flag body. -/
def isWordDash (n : Nat) : Bool := isWordCode n || n = 45

/-- Tail `\s*['"\x60](-{1,2}[\w-]+)['"\x60]` of the literal-flag pattern.
`-{1,2}` is greedy: the two-dash parse is attempted first and the
one-dash parse (whose `[\w-]+` then starts at the second dash) is the
backtracking alternative. -/
def flagLiteralTail (r : List Nat) : Option (List Nat × List Nat) := do
  let r3 ← eatQuote (eatWs0 r)
  match r3 with
  | 45 :: 45 :: r4 =>
    (do
      let (tok, r5) ← eatClass1 isWordDash r4
      let r6 ← eatQuote r5
      some (45 :: 45 :: tok, r6)) <|>
    (do
      let (tok, r5) ← eatClass1 isWordDash (45 :: r4)
      let r6 ← eatQuote r5
      some (45 :: tok, r6))
  | 45 :: r4 => do
    let (tok, r5) ← eatClass1 isWordDash r4
    let r6 ← eatQuote r5
    some (45 :: tok, r6)
  | _ => none

/-- Pattern `(?:===|==|case|includes\(|indexOf\()\s*['"\x60](-{1,2}[\w-]+)['"\x60]`,
alternatives tried in source order. -/
def matchFlagLiteral (cs : List Nat) : Option (List Nat × List Nat) :=
  (eatLit (codes "===") cs).bind flagLiteralTail <|>
  (eatLit (codes "==") cs).bind flagLiteralTail <|>
  (eatLit (codes "case") cs).bind flagLiteralTail <|>
  (eatLit (codes "includes(") cs).bind flagLiteralTail <|>
  (eatLit (codes "indexOf(") cs).bind flagLiteralTail

/-- Pattern `(?:argv|opts|flags)\.([a-zA-Z0-9_]+)` (the captured class
equals `\w`). -/
def matchPropFlag (cs : List Nat) : Option (List Nat × List Nat) :=
  (eatLit (codes "argv") cs).bind propTail <|>
  (eatLit (codes "opts") cs).bind propTail <|>
  (eatLit (codes "flags") cs).bind propTail
where
  propTail (r : List Nat) : Option (List Nat × List Nat) := do
    let r2 ← eatCode 46 r
    eatClass1 isWordCode r2

/-- All flag captures of both flag patterns, in pattern order. -/
def flagCandidates (code : List Nat) : List (List Nat) :=
  scanAll matchFlagLiteral code ++ scanAll matchPropFlag code

/-- Dash-normalisation of a captured flag: property names get one dash if
a single character, two dashes otherwise; literal captures already start
with a dash and pass through. -/
def normalizeFlag (tok : List Nat) : List Nat :=
  match tok with
  | 45 :: _ => tok
  | _ => if tok.length = 1 then 45 :: tok else 45 :: 45 :: tok

/-- The first rejection list of the flag filter (degenerate dashes and
data-structure method names, src/index.js line 226). -/
def flagRejectA : List String :=
  ["--", "-", "-1", "---", "--help", "-h", "--push", "--pop", "--shift",
   "--unshift", "--slice", "--splice", "--map", "--filter", "--reduce",
   "--forEach", "--find", "--join", "--includes", "--indexOf",
   "--toString", "--length", "--concat"]

/-- The second rejection list (generic placeholder names, line 227). -/
def flagRejectB : List String :=
  ["--flag", "--cmd", "--opt", "--arg", "--args", "--foo", "--bar"]

/-- Shape test `/^-{1,2}[a-zA-Z]/` (line 228). -/
def flagShapeOk (tok : List Nat) : Bool :=
  match tok with
  | 45 :: 45 :: c :: _ => isLetterCode c
  | 45 :: c :: _ => isLetterCode c
  | _ => false

/-- The full acceptance predicate of the flag filter chain
(lines 226–230): truthy, not rejected by either list, dash-letter shape. -/
def flagAccept (flag : String) : Bool :=
  flag ≠ "" && !(flagRejectA.contains flag) && !(flagRejectB.contains flag) &&
    flagShapeOk (codes flag)

/-- The static flag set of a source text: normalised candidates passed
through the filter chain, with `Set` deduplication. -/
def staticFlagsOf (code : List Nat) : List String :=
  setAddAll []
    (((flagCandidates code).map (fun tok => ofCodes (normalizeFlag tok))).filter
      flagAccept)

/-! ### Repository identifier (src/index.js 99–119) -/

/-- `[^\/]`. -/
def isNonSlash (n : Nat) : Bool := n ≠ 47

/-- `[^\/\.]`. -/
def isRepoChar (n : Nat) : Bool := n ≠ 47 && n ≠ 46

/-- `[^\/\.\s]`. -/
def isRepoCfgChar (n : Nat) : Bool := n ≠ 47 && n ≠ 46 && !(isWsCode n)

/-- Pattern `github\.com[\/:]([^\/]+)\/(G)` at the current position, with
the second group's class a parameter (the manifest branch uses `[^\/\.]+`,
the git-config branch `[^\/\.\s]+`). -/
def matchGithubAt (g2 : Nat → Bool) (cs : List Nat) :
    Option (List Nat × List Nat) := do
  let r1 ← eatLit (codes "github.com") cs
  let r2 ←
    match r1 with
    | c :: rest => if c = 47 || c = 58 then some rest else none
    | [] => none
  let (user, r3) ← eatClass1 isNonSlash r2
  let r4 ← eatCode 47 r3
  let (repo, _) ← eatClass1 g2 r4
  some (user, repo)

/-- Leftmost match of the hosting-URL pattern (`String.prototype.match`
without `g` returns the first match). -/
def findGithub (g2 : Nat → Bool) : Nat → List Nat → Option (List Nat × List Nat)
  | 0, _ => none
  | fuel + 1, cs =>
    match matchGithubAt g2 cs with
    | some uv => some uv
    | none =>
      match cs with
      | [] => none
      | _ :: t => findGithub g2 fuel t

/-- First match of `/github\.com[\/:]([^\/]+)\/([^\/\.]+)/` in a string. -/
def githubMatch (s : String) : Option (String × String) :=
  (findGithub isRepoChar ((codes s).length + 1) (codes s)).map
    (fun uv => (ofCodes uv.1, ofCodes uv.2))

/-- First match of `/github\.com[\/:]([^\/]+)\/([^\/\.\s]+)/` in a string. -/
def githubCfgMatch (s : String) : Option (String × String) :=
  (findGithub isRepoCfgChar ((codes s).length + 1) (codes s)).map
    (fun uv => (ofCodes uv.1, ofCodes uv.2))

/-- `lst` starts with `pat`. -/
def leadsWith : List Nat → List Nat → Bool
  | [], _ => true
  | _ :: _, [] => false
  | p :: ps, c :: cs => p = c && leadsWith ps cs

/-- `String.prototype.replace` with a non-empty plain-string pattern:
replace the first occurrence only. -/
def replaceFirst (sub repl : List Nat) : List Nat → List Nat
  | [] => []
  | c :: cs =>
    if leadsWith sub (c :: cs) then repl ++ (c :: cs).drop sub.length
    else c :: replaceFirst sub repl cs

/-- The manifest `repository` field: absent, a bare string, or an object
whose `url` property may be absent. -/
inductive RepoField where
  | missing
  | str (s : String)
  | obj (url : Option String)

/-- JavaScript truthiness of `pkg.repository` (an empty string is falsy,
any object is truthy). -/
def RepoField.truthy : RepoField → Bool
  | .missing => false
  | .str s => s ≠ ""
  | .obj _ => true

/-- `typeof pkg.repository === 'string' ? pkg.repository : pkg.repository.url`
(the optional chaining `repo?.match` makes an absent `url` mean
"no match"). -/
def RepoField.urlOf : RepoField → Option String
  | .missing => none
  | .str s => some s
  | .obj u => u

/-- A detected hosting reference. -/
structure RepoRef where
  user : String
  repo : String
deriving DecidableEq

/-- The manifest branch of the repository identifier (lines 99–105). -/
def detectFromManifest (r : RepoField) : Option RepoRef :=
  if r.truthy then
    match r.urlOf with
    | some s => (githubMatch s).map (fun uv => ⟨uv.1, uv.2⟩)
    | none => none
  else none

/-- The whole repository identifier: manifest field first, then the
git-config file (whose unreadability or absence is modelled by `none`;
the `catch` swallows read errors, lines 107–119).  The config branch
additionally strips a `.git` substring from the repo name. -/
def detectGithub (r : RepoField) (gitConfig : Option String) : Option RepoRef :=
  match detectFromManifest r with
  | some g => some g
  | none =>
    match gitConfig with
    | some cfg =>
      (githubCfgMatch cfg).map
        (fun uv => ⟨uv.1, ofCodes (replaceFirst (codes ".git") [] (codes uv.2))⟩)
    | none => none

/-! ### Help-text parser (src/index.js 122–156) -/

/-- `String.prototype.trim`: strip `\s` at both ends. -/
def trimCodes (l : List Nat) : List Nat :=
  ((l.dropWhile isWsCode).reverse.dropWhile isWsCode).reverse

/-- `/^(Commands|Usage|Options|Flags):/i.test(trimmed)`. -/
def isSectionHeaderLine (trimmed : List Nat) : Bool :=
  let lc := lowerCodes trimmed
  leadsWith (codes "commands:") lc || leadsWith (codes "usage:") lc ||
    leadsWith (codes "options:") lc || leadsWith (codes "flags:") lc

/-- `trimmed.split(':')[0].toLowerCase()`. -/
def sectionOf (trimmed : List Nat) : String :=
  ofCodes (lowerCodes (trimmed.takeWhile (fun n => n ≠ 58)))

/-- A line terminator, which `.` (without the `s` flag) does not match. -/
def isLineTermCode (n : Nat) : Bool := n = 10 || n = 13 || n = 8232 || n = 8233

/-- `\s+(.+)$` at the end of a line: greedy whitespace, then a non-empty
description running to the end of the line.  When everything after the
whitespace start is whitespace, the regex backtracks to leave exactly one
character for `(.+)`; any line terminator in the would-be description
(e.g. a stray `\r`) makes the whole match fail, since `.` cannot match
it and `$` is otherwise unreachable. -/
def descTail (rest : List Nat) : Option (List Nat) :=
  let ws := rest.takeWhile isWsCode
  let tl := rest.dropWhile isWsCode
  if ws.isEmpty then none
  else if tl.isEmpty then
    if 2 ≤ ws.length && !(isLineTermCode (ws.getLastD 0)) then
      some (ws.drop (ws.length - 1))
    else none
  else if tl.any isLineTermCode then none
  else some tl

/-- `[a-zA-Z0-9-]`, the character class of a help-text flag token. -/
def isAlnumDash (n : Nat) : Bool := isLetterCode n || (48 ≤ n && n ≤ 57) || n = 45

/-- `-[a-zA-Z0-9-]+`: one flag alternative. -/
def flagAltStep (cs : List Nat) : Option (List Nat × List Nat) := do
  let r ← eatCode 45 cs
  let (body, r2) ← eatClass1 isAlnumDash r
  some (45 :: body, r2)

/-- The repetition `(?:,\s+-[a-zA-Z0-9-]+)*`: greedy, each iteration
rolled back wholly if its tail fails (returning the remainder only; the
matched text is recovered by length difference).  Backtracking to fewer
iterations can never rescue the surrounding match, because the remainder
would then start with `,`, on which the following `\s+` fails. -/
def flagSepLoop : Nat → List Nat → List Nat
  | 0, cs => cs
  | fuel + 1, cs =>
    match cs with
    | 44 :: r =>
      match eatWs1 r with
      | some r2 =>
        match flagAltStep r2 with
        | some (_, r3) => flagSepLoop fuel r3
        | none => cs
      | none => cs
    | _ => cs

/-- `line.match(/^\s{2,}(\w[\w-]*)\s+(.+)$/)`: the commands-section rule,
returning (name, description) captures. -/
def cmdLineMatch (line : List Nat) : Option (List Nat × List Nat) :=
  if (line.takeWhile isWsCode).length < 2 then none
  else
    match line.dropWhile isWsCode with
    | [] => none
    | c :: rest =>
      if isWordCode c then
        (descTail (rest.dropWhile isWordDash)).map
          (fun d => (c :: rest.takeWhile isWordDash, d))
      else none

/-- `line.match(/^\s{2,}(-[a-zA-Z0-9-]+(?:,\s+-[a-zA-Z0-9-]+)*)\s+(.+)$/)`:
the options/flags-section rule, returning (whole first group, description). -/
def flagLineMatch (line : List Nat) : Option (List Nat × List Nat) :=
  if (line.takeWhile isWsCode).length < 2 then none
  else
    match flagAltStep (line.dropWhile isWsCode) with
    | none => none
    | some (_, r2) =>
      (descTail (flagSepLoop r2.length r2)).map
        (fun d =>
          ((line.dropWhile isWsCode).take
            ((line.dropWhile isWsCode).length - (flagSepLoop r2.length r2).length),
           d))

/-- `String.prototype.split` on a one-character separator. -/
def splitOn (sep : Nat) : List Nat → List (List Nat)
  | [] => [[]]
  | c :: cs =>
    if c = sep then [] :: splitOn sep cs
    else
      match splitOn sep cs with
      | p :: ps => (c :: p) :: ps
      | [] => [[c]]

/-- `names.find(n => n.startsWith('--')) || names[0]`: the canonical name
among the comma-separated alternatives (JavaScript `||` falls through on
an empty — falsy — string). -/
def primaryName (names : List String) : String :=
  match names.find? (fun n => leadsWith (codes "--") (codes n)) with
  | some s => if s = "" then names.headD "" else s
  | none => names.headD ""

/-- One iteration of the parser loop (src/index.js 127–153): new section
cursor, emitted command records, emitted flag records. -/
def helpLineStep (sec : Option String) (line : List Nat) :
    Option String × List (String × String) × List (String × String) :=
  if isSectionHeaderLine (trimCodes line) then
    (some (sectionOf (trimCodes line)), [], [])
  else if (trimCodes line).isEmpty then (sec, [], [])
  else if sec = some "commands" then
    match cmdLineMatch line with
    | some (name, d) => (sec, [(ofCodes name, ofCodes d)], [])
    | none => (sec, [], [])
  else if sec = some "options" || sec = some "flags" then
    match flagLineMatch line with
    | some (g1, d) =>
      let names := (splitOn 44 g1).map (fun p => ofCodes (trimCodes p))
      (sec, [], [(primaryName names, ofCodes d)])
    | none => (sec, [], [])
  else (sec, [], [])

/-- `parseHelpOutput`: split on newlines and run the cursor loop;
returns (commands, flags) in encounter order. -/
def parseHelpOutput (output : String) :
    List (String × String) × List (String × String) :=
  let r :=
    (splitOn 10 (codes output)).foldl
      (fun acc line =>
        let s := helpLineStep acc.1 line
        (s.1, acc.2.1 ++ s.2.1, acc.2.2 ++ s.2.2))
      (none, [], [])
  r.2

/-! ### CLI flags, overwrite guard and output mode (src/index.js 10–16,
59–64, 273–276, 372–377) -/

/-- The parsed `flags` object literal: exactly these five keys. -/
structure Flags where
  help : Bool
  json : Bool
  force : Bool
  stdout : Bool
  badges : Bool
deriving DecidableEq

/-- The property read `flags.human` at lines 61 and 273.  The `flags`
object defines no `human` key, so the read yields `undefined`, which is
falsy in a boolean context. -/
def flagsHuman (_f : Flags) : Bool := false

/-- The property read `flags.H` at lines 61 and 273; also undefined. -/
def flagsH (_f : Flags) : Bool := false

/-- The overwrite-guard condition of line 61:
`fs.existsSync(readmePath) && !flags.force && !flags.stdout && !(!flags.human && !flags.H)`. -/
def overwriteGuardFires (readmeExists : Bool) (f : Flags) : Bool :=
  readmeExists && !f.force && !f.stdout && !(!flagsHuman f && !flagsH f)

/-- The structured-output branch condition of line 273:
`if (!flags.human && !flags.H)`. -/
def jsonBranchTaken (f : Flags) : Bool := !flagsHuman f && !flagsH f

/-- What a run does after the directory and manifest checks succeed. -/
inductive Outcome where
  | overwriteRefused
  | jsonPrinted
  | readmeToStdout (content : String)
  | readmeWritten (content : String)
deriving DecidableEq

/-- Process exit status of an outcome (the guard exits 1; the JSON
branch, the stdout branch and the write branch exit 0). -/
def Outcome.statusCode : Outcome → Nat
  | .overwriteRefused => 1
  | _ => 0

/-- Whether an outcome writes `README.md`. -/
def Outcome.writesFile : Outcome → Bool
  | .readmeWritten _ => true
  | _ => false

/-- The run's control flow on its branch conditions: guard (line 61),
structured-output branch (273–276), then stdout-or-write (373–377),
with `readme` the rendered document. -/
def runTool (readmeExists : Bool) (f : Flags) (readme : String) : Outcome :=
  if overwriteGuardFires readmeExists f then .overwriteRefused
  else if jsonBranchTaken f then .jsonPrinted
  else if f.stdout then .readmeToStdout readme
  else .readmeWritten readme

/-! ### Renderer (src/index.js 279–370) -/

/-- The analysis model as consumed by the renderer: manifest fields with
their defaults, `Object.keys` of `scripts` and `bin` in insertion order,
merged command and flag records, detected repository. -/
structure Analysis where
  name : String
  description : String
  version : String
  license : String
  author : String
  scriptKeys : List String
  binKeys : List String
  main : String
  commands : List (String × String)
  flags : List (String × String)
  github : Option RepoRef

/-- One table row: `| \x60name\x60 | desc |` (an empty description stays
empty under `|| ''`). -/
def renderRow (p : String × String) : String :=
  "| `" ++ p.1 ++ "` | " ++ p.2 ++ " |\n"

/-- `${x || y}` on strings: an empty string is falsy. -/
def jsOrStr (x y : String) : String := if x = "" then y else x

/-- The Markdown template of lines 279–370. -/
def generateReadme (a : Analysis) (badges : Bool) : String :=
  let badgeBlock :=
    match badges, a.github with
    | true, some g =>
      "![License](https://img.shields.io/github/license/" ++ g.user ++ "/" ++
        g.repo ++ ")\n" ++
      "![Version](https://img.shields.io/github/package-json/v/" ++ g.user ++
        "/" ++ g.repo ++ ")\n" ++
      "![Stars](https://img.shields.io/github/stars/" ++ g.user ++ "/" ++
        g.repo ++ ")\n\n"
    | _, _ => ""
  let install :=
    "## Installation\n\n```bash\n" ++
      (if a.binKeys ≠ [] then
        "npm install -g " ++ a.name ++ "\n# or\nnpx " ++ a.name ++ "\n"
      else "npm install " ++ a.name ++ "\n") ++ "```\n\n"
  let usage :=
    "## Usage\n\n" ++
      (if a.binKeys ≠ [] then
        "```bash\n" ++ a.binKeys.headD "" ++ " --help\n```\n\n"
      else "")
  let cmds :=
    if a.commands ≠ [] then
      "### Commands\n\n| Command | Description |\n|---------|-------------|\n" ++
        String.join (a.commands.map renderRow) ++ "\n"
    else ""
  let fl :=
    if a.flags ≠ [] then
      "### Options\n\n| Option | Description |\n|--------|-------------|\n" ++
        String.join (a.flags.map renderRow) ++ "\n"
    else ""
  let ex :=
    "## Examples\n\n```bash\n" ++
      (if a.binKeys ≠ [] then
        match a.commands with
        | c :: _ =>
          "# " ++ jsOrStr c.2 c.1 ++ "\n" ++ a.binKeys.headD "" ++ " " ++
            c.1 ++ "\n"
        | [] => a.binKeys.headD "" ++ "\n"
      else "node " ++ a.main ++ "\n") ++ "```\n\n"
  let useful := a.scriptKeys.filter (fun s => s ≠ "test")
  let dev :=
    if a.scriptKeys ≠ [] && useful ≠ [] then
      "## Development\n\n```bash\n" ++
        String.join ((useful.take 3).map (fun s => "npm run " ++ s ++ "\n")) ++
        "```\n\n"
    else ""
  let lic :=
    "## License\n\n" ++ a.license ++
      (if a.author ≠ "" then " © " ++ a.author else "") ++ "\n"
  "# " ++ a.name ++ "\n\n" ++ a.description ++ "\n\n" ++ badgeBlock ++
    install ++ usage ++ cmds ++ fl ++ ex ++ dev ++ lic

/-- Substring containment on code lists. -/
def containsSeq (needle : List Nat) : List Nat → Bool
  | [] => needle.isEmpty
  | c :: cs => leadsWith needle (c :: cs) || containsSeq needle cs

/-- Substring containment on strings. -/
def strContains (hay needle : String) : Bool := containsSeq (codes needle) (codes hay)

/-- String prefix test. -/
def strLeadsWith (s pat : String) : Bool := leadsWith (codes pat) (codes s)

/-! ### Concrete inputs for the testable properties -/

/-- A single-quote code point (used to spell source-text fixtures). -/
def qc : List Nat := [39]

/-- A newline code point. -/
def nl : List Nat := [10]

/-- Fixture for the stoplist property: a source text containing the three
case labels `case 'help':`, `case 'version':`, `case 'deploy':`. -/
def stoplistText : List Nat :=
  codes "case " ++ qc ++ codes "help" ++ qc ++ codes ":" ++ nl ++
  codes "case " ++ qc ++ codes "version" ++ qc ++ codes ":" ++ nl ++
  codes "case " ++ qc ++ codes "deploy" ++ qc ++ codes ":" ++ nl

/-- Fixture for flag normalisation: a text containing `opts.force`. -/
def optsForceText : List Nat := codes "const ok = opts.force;"

/-- Fixture for flag normalisation: a text containing `opts.f`. -/
def optsFText : List Nat := codes "const ok = opts.f;"

/-- Fixture for the rejection-list property: a text in which `--help`
appears literally as an operand of an inclusion check
(`if (args.includes('--help')) show();`) next to `opts.force`. -/
def rejectionText : List Nat :=
  codes "if (args.includes(" ++ qc ++ codes "--help" ++ qc ++
    codes ")) show();" ++ nl ++ codes "const v = opts.force;"

/-- The `cli.js` of the end-to-end scenario: contains `case 'build':`. -/
def scenarioCliJs : List Nat :=
  codes "const cmd = process.argv[2];" ++ nl ++
  codes "switch (cmd)" ++ nl ++
  codes "  case " ++ qc ++ codes "build" ++ qc ++ codes ":" ++ nl ++
  codes "    runBuild();" ++ nl

/-- The analysis the pipeline computes for the end-to-end scenario
directory (`package.json` is `name: tool` with `bin: tool -> cli.js`;
all other manifest fields take their documented defaults, lines 82–96;
the default `main` entry `index.js` does not exist, so the dynamic probe
yields nothing and the static scanner reads only `cli.js`). -/
def scenarioAnalysis : Analysis where
  name := "tool"
  description := "A CLI tool"
  version := "1.0.0"
  license := "MIT"
  author := ""
  scriptKeys := []
  binKeys := ["tool"]
  main := "index.js"
  commands := mergeEntries (staticCommandsOf scenarioCliJs) []
  flags := mergeEntries (staticFlagsOf scenarioCliJs) []
  github := detectGithub .missing none

/-- A run with no command-line options set. -/
def noOptions : Flags := ⟨false, false, false, false, false⟩

/-! ## Helper lemmas: the collation order -/

theorem keyLe_total : ∀ a b : List Nat, keyLe a b = true ∨ keyLe b a = true
  | [], _ => Or.inl rfl
  | _ :: _, [] => Or.inr rfl
  | a :: as, b :: bs => by
    by_cases hab : a < b
    · exact Or.inl (by simp [keyLe, hab])
    · by_cases hba : b < a
      · exact Or.inr (by simp [keyLe, hba])
      · have hea : a = b := Nat.le_antisymm (Nat.not_lt.mp hba) (Nat.not_lt.mp hab)
        subst hea
        rcases keyLe_total as bs with h | h
        · exact Or.inl (by simp [keyLe, h])
        · exact Or.inr (by simp [keyLe, h])

theorem keyLe_trans :
    ∀ a b c : List Nat, keyLe a b = true → keyLe b c = true → keyLe a c = true
  | [], _, _, _, _ => rfl
  | _ :: _, [], _, h, _ => by simp [keyLe] at h
  | _ :: _, _ :: _, [], _, h2 => by simp [keyLe] at h2
  | a :: as, b :: bs, c :: cs, h1, h2 => by
    have hab : a < b ∨ (a = b ∧ keyLe as bs = true) := by
      by_cases h : a < b
      · exact Or.inl h
      · by_cases h' : b < a
        · simp [keyLe, h, h'] at h1
        · exact Or.inr ⟨Nat.le_antisymm (Nat.not_lt.mp h') (Nat.not_lt.mp h),
            by simpa [keyLe, h, h'] using h1⟩
    have hbc : b < c ∨ (b = c ∧ keyLe bs cs = true) := by
      by_cases h : b < c
      · exact Or.inl h
      · by_cases h' : c < b
        · simp [keyLe, h, h'] at h2
        · exact Or.inr ⟨Nat.le_antisymm (Nat.not_lt.mp h') (Nat.not_lt.mp h),
            by simpa [keyLe, h, h'] using h2⟩
    rcases hab with hab | ⟨hab, has⟩
    · rcases hbc with hbc | ⟨hbc, _⟩
      · simp [keyLe, Nat.lt_trans hab hbc]
      · subst hbc; simp [keyLe, hab]
    · subst hab
      rcases hbc with hbc | ⟨hbc, hbs⟩
      · simp [keyLe, hbc]
      · subst hbc
        simp [keyLe, Nat.lt_irrefl, keyLe_trans as bs cs has hbs]

theorem keyLe_antisymm : ∀ a b : List Nat, keyLe a b = true → keyLe b a = true → a = b
  | [], [], _, _ => rfl
  | [], _ :: _, _, h2 => by simp [keyLe] at h2
  | _ :: _, [], h1, _ => by simp [keyLe] at h1
  | a :: as, b :: bs, h1, h2 => by
    by_cases h : a < b
    · simp [keyLe, h, Nat.lt_asymm h] at h2
    · by_cases h' : b < a
      · simp [keyLe, h, h'] at h1
      · have hea : a = b := Nat.le_antisymm (Nat.not_lt.mp h') (Nat.not_lt.mp h)
        subst hea
        have h1' : keyLe as bs = true := by simpa [keyLe, Nat.lt_irrefl] using h1
        have h2' : keyLe bs as = true := by simpa [keyLe, Nat.lt_irrefl] using h2
        rw [keyLe_antisymm as bs h1' h2']

theorem chPrim_pos (n : Nat) : chPrim n ≠ 0 := Nat.succ_ne_zero _

theorem chPrimCase_inj {a b : Nat} (hp : chPrim a = chPrim b)
    (hc : chCase a = chCase b) : a = b := by
  unfold chPrim lowerCode at hp
  unfold chCase at hc
  by_cases ha : isUpperCode a <;> by_cases hb : isUpperCode b <;>
    simp [ha, hb] at hp hc <;> omega

theorem append_zero_inj :
    ∀ xs ys as bs : List Nat, (∀ x ∈ xs, x ≠ 0) → (∀ y ∈ ys, y ≠ 0) →
      xs ++ 0 :: as = ys ++ 0 :: bs → xs = ys ∧ as = bs
  | [], [], _, _, _, _, h => ⟨rfl, by simpa using h⟩
  | [], y :: ys, _, _, _, hy, h => by
    simp only [List.nil_append, List.cons_append, List.cons.injEq] at h
    exact absurd h.1.symm (hy y (List.mem_cons_self y ys))
  | x :: xs, [], _, _, hx, _, h => by
    simp only [List.nil_append, List.cons_append, List.cons.injEq] at h
    exact absurd h.1 (hx x (List.mem_cons_self x xs))
  | x :: xs, y :: ys, as, bs, hx, hy, h => by
    simp only [List.cons_append, List.cons.injEq] at h
    obtain ⟨rfl, h2⟩ := h
    have ih := append_zero_inj xs ys as bs
      (fun z hz => hx z (List.mem_cons_of_mem _ hz))
      (fun z hz => hy z (List.mem_cons_of_mem _ hz)) h2
    exact ⟨by rw [ih.1], ih.2⟩

theorem map_weights_inj :
    ∀ l1 l2 : List Nat, l1.map chPrim = l2.map chPrim →
      l1.map chCase = l2.map chCase → l1 = l2
  | [], [], _, _ => rfl
  | [], _ :: _, h, _ => by simp at h
  | _ :: _, [], h, _ => by simp at h
  | a :: l1, b :: l2, hp, hc => by
    simp only [List.map_cons, List.cons.injEq] at hp hc
    rw [chPrimCase_inj hp.1 hc.1, map_weights_inj l1 l2 hp.2 hc.2]

theorem codes_inj {s t : String} (h : codes s = codes t) : s = t := by
  obtain ⟨sd⟩ := s
  obtain ⟨td⟩ := t
  unfold codes at h
  have : sd = td := by
    induction sd generalizing td with
    | nil => cases td with
      | nil => rfl
      | cons _ _ => simp at h
    | cons c cs ih =>
      cases td with
      | nil => simp at h
      | cons d ds =>
        simp only [List.map_cons, List.cons.injEq] at h
        exact by rw [Char.ext (UInt32.ext h.1), ih ds h.2]
  rw [this]

theorem collationKey_inj {s t : String} (h : collationKey s = collationKey t) :
    s = t := by
  unfold collationKey at h
  have hsplit := append_zero_inj _ _ _ _
    (by
      intro x hx
      obtain ⟨n, _, rfl⟩ := List.mem_map.mp hx
      exact chPrim_pos n)
    (by
      intro x hx
      obtain ⟨n, _, rfl⟩ := List.mem_map.mp hx
      exact chPrim_pos n) h
  exact codes_inj (map_weights_inj _ _ hsplit.1 hsplit.2)

/-! ## Helper lemmas: the merge engine -/

theorem lookupName_mapSet_self :
    ∀ (m : List (String × String)) (k v : String),
      lookupName (mapSet m k v) k = some v
  | [], k, v => by simp [mapSet, lookupName]
  | p :: m, k, v => by
    by_cases h : p.1 = k
    · simp [mapSet, h, lookupName]
    · simp only [mapSet, if_neg h]
      have : lookupName (p :: mapSet m k v) k = lookupName (mapSet m k v) k := by
        simp [lookupName, List.find?_cons_of_neg, h]
      rw [this, lookupName_mapSet_self m k v]

theorem lookupName_mapSet_ne {n k : String} (hne : n ≠ k) :
    ∀ (m : List (String × String)) (v : String),
      lookupName (mapSet m k v) n = lookupName m n
  | [], v => by simp [mapSet, lookupName, Ne.symm hne]
  | p :: m, v => by
    by_cases h : p.1 = k
    · simp only [mapSet, if_pos h, lookupName]
      rw [List.find?_cons_of_neg _ (by simp [Ne.symm hne]),
        List.find?_cons_of_neg _ (by simp [h, Ne.symm hne])]
    · simp only [mapSet, if_neg h, lookupName]
      by_cases hpn : p.1 = n
      · rw [List.find?_cons_of_pos _ (by simp [hpn]),
          List.find?_cons_of_pos _ (by simp [hpn])]
      · rw [List.find?_cons_of_neg _ (by simp [hpn]),
          List.find?_cons_of_neg _ (by simp [hpn])]
        exact lookupName_mapSet_ne hne m v

theorem mem_mapSet :
    ∀ (m : List (String × String)) (k v : String) (q : String × String),
      q ∈ mapSet m k v → q ∈ m ∨ q = (k, v)
  | [], k, v, q, h => by simpa [mapSet] using h
  | p :: m, k, v, q, h => by
    by_cases hp : p.1 = k
    · simp only [mapSet, if_pos hp] at h
      rcases List.mem_cons.mp h with h | h
      · exact Or.inr h
      · exact Or.inl (List.mem_cons_of_mem _ h)
    · simp only [mapSet, if_neg hp] at h
      rcases List.mem_cons.mp h with h | h
      · exact Or.inl (h ▸ List.mem_cons_self _ _)
      · rcases mem_mapSet m k v q h with h | h
        · exact Or.inl (List.mem_cons_of_mem _ h)
        · exact Or.inr h

theorem keysNodup_mapSet :
    ∀ (m : List (String × String)) (k v : String),
      keysNodup m → keysNodup (mapSet m k v)
  | [], k, v, _ => by simp [mapSet, keysNodup]
  | p :: m, k, v, h => by
    obtain ⟨hp, hm⟩ := List.pairwise_cons.mp h
    by_cases hk : p.1 = k
    · simp only [keysNodup, mapSet, if_pos hk]
      exact List.pairwise_cons.mpr ⟨fun q hq => hk ▸ hp q hq, hm⟩
    · simp only [keysNodup, mapSet, if_neg hk]
      refine List.pairwise_cons.mpr ⟨?_, keysNodup_mapSet m k v hm⟩
      intro q hq
      rcases mem_mapSet m k v q hq with h' | h'
      · exact hp q h'
      · rw [h']; exact hk

theorem overlay_cons (p : String × String) (D : List (String × String))
    (m : List (String × String)) :
    overlay (p :: D) m = overlay D (mapSet m p.1 p.2) := rfl

theorem lookupName_overlay :
    ∀ (D : List (String × String)) (m : List (String × String)) (n : String),
      lookupName (overlay D m) n = (lastDesc D n).or (lookupName m n)
  | [], m, n => by simp [overlay, lastDesc]
  | p :: D, m, n => by
    rw [overlay_cons, lookupName_overlay D (mapSet m p.1 p.2) n]
    have hrev : lastDesc (p :: D) n =
        (lastDesc D n).or (if p.1 = n then some p.2 else none) := by
      unfold lastDesc
      rw [List.reverse_cons, List.find?_append]
      by_cases hp : p.1 = n
      · simp [hp]
        cases List.find? (fun q => decide (q.1 = n)) D.reverse <;> simp
      · simp [hp]
    rw [hrev]
    cases hd : lastDesc D n with
    | some d => simp [Option.or]
    | none =>
      by_cases hp : p.1 = n
      · simp only [if_pos hp, Option.or]
        rw [← hp, lookupName_mapSet_self]
      · simp only [if_neg hp, Option.or]
        exact lookupName_mapSet_ne (fun he => hp he.symm) m p.2

theorem keysNodup_overlay :
    ∀ (D : List (String × String)) (m : List (String × String)),
      keysNodup m → keysNodup (overlay D m)
  | [], _, h => h
  | p :: D, m, h => keysNodup_overlay D _ (keysNodup_mapSet m p.1 p.2 h)

theorem mapSet_eq_append :
    ∀ (m : List (String × String)) (k v : String),
      (∀ q ∈ m, q.1 ≠ k) → mapSet m k v = m ++ [(k, v)]
  | [], _, _, _ => rfl
  | p :: m, k, v, h => by
    rw [mapSet, if_neg (h p (List.mem_cons_self p m)),
      mapSet_eq_append m k v (fun q hq => h q (List.mem_cons_of_mem _ hq))]
    rfl

theorem overlay_extend :
    ∀ (L : List (String × String)) (m : List (String × String)),
      keysNodup (m ++ L) → overlay L m = m ++ L
  | [], m, _ => by simp [overlay]
  | p :: L, m, h => by
    have hp : ∀ q ∈ m, q.1 ≠ p.1 := by
      intro q hq
      exact (List.pairwise_append.mp h).2.2 q hq p (List.mem_cons_self p L)
    rw [overlay_cons, mapSet_eq_append m p.1 p.2 hp]
    have h' : keysNodup ((m ++ [(p.1, p.2)]) ++ L) := by
      simpa [List.append_assoc] using h
    rw [overlay_extend L (m ++ [(p.1, p.2)]) h']
    simp

theorem lookupName_of_mem :
    ∀ (m : List (String × String)) (n d : String),
      keysNodup m → (n, d) ∈ m → lookupName m n = some d
  | [], _, _, _, hm => by simp at hm
  | p :: m, n, d, hnd, hm => by
    obtain ⟨hp, htail⟩ := List.pairwise_cons.mp hnd
    rcases List.mem_cons.mp hm with h | h
    · rw [← h]
      simp [lookupName, List.find?_cons_of_pos]
    · by_cases hpn : p.1 = n
      · exact absurd (hpn.trans rfl) (by simpa using hp (n, d) h)
      · have hstep : lookupName (p :: m) n = lookupName m n := by
          unfold lookupName
          rw [List.find?_cons_of_neg _ (by simp [hpn])]
        rw [hstep]
        exact lookupName_of_mem m n d htail h

theorem mem_of_lookupName {m : List (String × String)} {n d : String}
    (h : lookupName m n = some d) : (n, d) ∈ m := by
  unfold lookupName at h
  cases hf : m.find? (fun p => decide (p.1 = n)) with
  | none => rw [hf] at h; simp at h
  | some p =>
    rw [hf] at h
    have hp1 : p.1 = n := by simpa using List.find?_some hf
    have hp2 : p.2 = d := by simpa using h
    have : p = (n, d) := by
      obtain ⟨p1, p2⟩ := p
      simp only at hp1 hp2
      rw [hp1, hp2]
    exact this ▸ List.mem_of_find?_eq_some hf

theorem mergeEntries_keysNodup (S : List String) (D : List (String × String)) :
    keysNodup (mergeEntries S D) := by
  have h0 : keysNodup (overlay D (overlay (S.map (fun c => (c, ""))) [])) :=
    keysNodup_overlay D _ (keysNodup_overlay _ [] (by simp [keysNodup]))
  have hperm := List.perm_insertionSort recLe
    (overlay D (overlay (S.map (fun c => (c, ""))) []))
  exact (hperm.pairwise_iff (fun h => h.symm)).mpr h0

theorem mergeEntries_sorted (S : List String) (D : List (String × String)) :
    List.Sorted recLe (mergeEntries S D) := by
  haveI : IsTotal (String × String) recLe :=
    ⟨fun a b => keyLe_total (collationKey a.1) (collationKey b.1)⟩
  haveI : IsTrans (String × String) recLe :=
    ⟨fun _ _ _ h1 h2 => keyLe_trans _ _ _ h1 h2⟩
  exact List.sorted_insertionSort recLe _

/-! ## Helper lemmas: scanners and parser -/

theorem mem_setAddAll :
    ∀ (xs s : List String) (t : String), t ∈ setAddAll s xs → t ∈ s ∨ t ∈ xs
  | [], _, _, h => Or.inl h
  | x :: xs, s, t, h => by
    have h' : t ∈ setAddAll (if s.contains x then s else s ++ [x]) xs := h
    rcases mem_setAddAll xs _ t h' with h'' | h''
    · by_cases hc : s.contains x
      · rw [if_pos hc] at h''
        exact Or.inl h''
      · rw [if_neg hc] at h''
        rcases List.mem_append.mp h'' with h3 | h3
        · exact Or.inl h3
        · exact Or.inr (by simpa using Or.inl (List.mem_singleton.mp h3))
    · exact Or.inr (List.mem_cons_of_mem _ h'')

theorem flagAltStep_shape {cs a r : List Nat} (h : flagAltStep cs = some (a, r)) :
    ∃ t, cs = 45 :: t := by
  unfold flagAltStep eatCode at h
  cases cs with
  | nil => simp at h
  | cons c t =>
    by_cases hc : c = 45
    · exact ⟨t, by rw [hc]⟩
    · simp [hc] at h

theorem trimEnd_cons {c : Nat} (hc : isWsCode c = false) (l : List Nat) :
    ∃ u, ((c :: l).reverse.dropWhile isWsCode).reverse = c :: u := by
  rw [List.reverse_cons, List.dropWhile_append]
  by_cases he : (List.dropWhile isWsCode l.reverse).isEmpty
  · rw [if_pos he]
    exact ⟨[], by simp [List.dropWhile, hc]⟩
  · rw [if_neg he]
    exact ⟨(List.dropWhile isWsCode l.reverse).reverse, by simp⟩

theorem flagLineMatch_trim {line g1 d : List Nat}
    (h : flagLineMatch line = some (g1, d)) : ∃ u, trimCodes line = 45 :: u := by
  unfold flagLineMatch at h
  by_cases hlen : (line.takeWhile isWsCode).length < 2
  · rw [if_pos hlen] at h
    exact absurd h (by simp)
  · rw [if_neg hlen] at h
    cases hstep : flagAltStep (line.dropWhile isWsCode) with
    | none => rw [hstep] at h; simp at h
    | some pr =>
      obtain ⟨a, r⟩ := pr
      obtain ⟨t, ht⟩ := flagAltStep_shape hstep
      unfold trimCodes
      rw [ht]
      exact trimEnd_cons (by decide) t

theorem header_not_dash (u : List Nat) : isSectionHeaderLine (45 :: u) = false := by
  simp [isSectionHeaderLine, lowerCodes, lowerCode, isUpperCode, codes, leadsWith]

/-! ## The claims -/

/-- C1: the claim says that with an existing `README.md` and neither an
overwrite nor a preview option the tool exits non-zero via the overwrite
guard.  The code contradicts this: the guard condition of line 61 ends in
`!(!flags.human && !flags.H)` over two properties the `flags` object never
defines, so it is identically false and the guard can never fire; the run
instead reaches the (equally inverted) line-273 branch, prints the JSON
analysis and exits 0, for every flag combination. -/
theorem overwrite_guard_never_fires :
    (∀ (e : Bool) (f : Flags), overwriteGuardFires e f = false) ∧
    ∀ r : String, runTool true noOptions r = Outcome.jsonPrinted ∧
      (runTool true noOptions r).statusCode = 0 :=
  ⟨fun e f => by simp [overwriteGuardFires, flagsHuman, flagsH],
   fun _ => ⟨rfl, rfl⟩⟩

/-- C2: the claim describes the end-to-end scenario (`package.json` with
name `tool` and bin `tool -> cli.js`, a `cli.js` containing
`case 'build':`, no badge flag, no existing README) producing a
`README.md` starting with `# tool`, an Installation section with
`npm install -g tool`, and a Commands table row for `build`.  The
renderer would indeed produce exactly that document, but the inverted
line-273 condition `!flags.human && !flags.H` is identically true, so the
default run prints the JSON analysis and exits 0 without ever writing the
file. -/
theorem scenario_outputs_json_not_readme :
    runTool false noOptions (generateReadme scenarioAnalysis false) =
      Outcome.jsonPrinted ∧
    (runTool false noOptions (generateReadme scenarioAnalysis false)).writesFile =
      false ∧
    strLeadsWith (generateReadme scenarioAnalysis false) "# tool" = true ∧
    strContains (generateReadme scenarioAnalysis false) "## Installation" = true ∧
    strContains (generateReadme scenarioAnalysis false) "npm install -g tool" = true ∧
    strContains (generateReadme scenarioAnalysis false) "| `build` |  |" = true := by
  refine ⟨rfl, rfl, ?_, ?_, ?_, ?_⟩ <;> decide

/-- C3: for a name present in both the static candidate set and the
dynamic parsed set, the merged description is the dynamic one (the last
dynamic write for that name), even when it is the empty string — the
overlay pass overwrites the empty static seeds unconditionally. -/
theorem merge_dynamic_wins (S : List String) (D : List (String × String))
    (n d : String) (_hS : n ∈ S) (hD : lastDesc D n = some d) :
    lookupName (mergeEntries S D) n = some d := by
  have hmerged :
      lookupName (overlay D (overlay (S.map (fun c => (c, ""))) [])) n = some d := by
    rw [lookupName_overlay, hD]
    rfl
  have hmem : (n, d) ∈ overlay D (overlay (S.map (fun c => (c, ""))) []) :=
    mem_of_lookupName hmerged
  have hmem' : (n, d) ∈ mergeEntries S D :=
    (List.mem_insertionSort recLe).mpr hmem
  exact lookupName_of_mem _ n d (mergeEntries_keysNodup S D) hmem'

/-- C3, witness: merging static `{build}` with dynamic `build` carrying an
empty description yields the dynamic (empty) description. -/
theorem merge_dynamic_wins_witness :
    "build" ∈ ["build"] ∧ lastDesc [("build", "")] "build" = some "" ∧
    lookupName (mergeEntries ["build"] [("build", "")]) "build" = some "" :=
  ⟨by decide, by decide,
   merge_dynamic_wins ["build"] [("build", "")] "build" "" (by decide) (by decide)⟩

/-- C4: the merge is idempotent — feeding its output back in as the
dynamic set against an empty static set reproduces the same sequence. -/
theorem merge_idempotent (S : List String) (D : List (String × String)) :
    mergeEntries [] (mergeEntries S D) = mergeEntries S D := by
  have hov : overlay (mergeEntries S D) [] = [] ++ mergeEntries S D :=
    overlay_extend (mergeEntries S D) []
      (by simpa [keysNodup] using mergeEntries_keysNodup S D)
  show List.insertionSort recLe
      (overlay (mergeEntries S D) (overlay (List.map (fun c => (c, "")) []) [])) =
    mergeEntries S D
  rw [show overlay (List.map (fun c => (c, "")) []) [] = ([] : List (String × String))
      from rfl, hov, List.nil_append]
  exact List.Sorted.insertionSort_eq (mergeEntries_sorted S D)

/-- C5, counterexample: the claim asserts the merged sequence is strictly
ascending under ordinal (code-point) comparison.  For the static set
`{a, B}` the merge emits `[a, B]` (locale order: case-insensitive primary
pass), which is descending ordinally, since `B` (66) precedes `a` (97). -/
theorem merge_not_ordinal_counterexample :
    ¬ (mergeEntries ["a", "B"] []).Pairwise
        (fun a b => ordLt a.1 b.1 = true ∧ a.1 ≠ b.1) := by decide

/-- C5, amended: the merged sequences are strictly ascending by name with
no duplicate names under the locale-aware collation implemented by
`localeCompare` (case-insensitive primary weights, lowercase before
uppercase on ties) — not under ordinal comparison. -/
theorem merge_sorted_locale (S : List String) (D : List (String × String)) :
    (mergeEntries S D).Pairwise (fun a b => locLt a.1 b.1 = true ∧ a.1 ≠ b.1) := by
  have hand := List.Pairwise.and (mergeEntries_sorted S D) (mergeEntries_keysNodup S D)
  refine hand.imp ?_
  intro a b hab
  obtain ⟨hle, hne⟩ := hab
  have hle' : keyLe (collationKey a.1) (collationKey b.1) = true := hle
  have hba : keyLe (collationKey b.1) (collationKey a.1) = false := by
    cases hq : keyLe (collationKey b.1) (collationKey a.1) with
    | false => rfl
    | true => exact absurd (collationKey_inj (keyLe_antisymm _ _ hle' hq)) hne
  refine ⟨?_, hne⟩
  unfold locLt
  rw [hle', hba]
  rfl

/-- C6: scanning a source text with the case labels `help`, `version` and
`deploy` yields exactly the command `deploy`; the first two fall to the
case-insensitive generic-token stoplist. -/
theorem stoplist_excludes_generic : staticCommandsOf stoplistText = ["deploy"] := by
  rfl

/-- C7: `opts.force` normalises to the double-dash flag `--force`, and the
single-letter `opts.f` to the single-dash `-f`. -/
theorem flag_normalization_cases :
    staticFlagsOf optsForceText = ["--force"] ∧ staticFlagsOf optsFText = ["-f"] :=
  ⟨rfl, rfl⟩

/-- C8: the manifest repository string
`https://github.com/acme/widgets.git` yields user `acme` and repo
`widgets` (the `.git` suffix is never captured because the repo-name class
excludes dots), and identification is total: when neither the manifest URL
nor the (possibly unreadable) git config matches, the result is empty
rather than an error. -/
theorem repo_extraction_and_totality :
    (∀ g : Option String,
        detectGithub (.str "https://github.com/acme/widgets.git") g =
          some ⟨"acme", "widgets"⟩) ∧
    ∀ (r : RepoField) (cfg : Option String),
      r.urlOf.bind (fun u => githubMatch u) = none →
      (∀ c, cfg = some c → githubCfgMatch c = none) →
      detectGithub r cfg = none := by
  constructor
  · intro g
    rfl
  · intro r cfg h1 h2
    unfold detectGithub
    have hman : detectFromManifest r = none := by
      unfold detectFromManifest
      cases r with
      | missing => rfl
      | str s =>
        by_cases hs : s = ""
        · simp [RepoField.truthy, hs]
        · have hm : githubMatch s = none := by simpa [RepoField.urlOf] using h1
          simp [RepoField.truthy, hs, RepoField.urlOf, hm]
      | obj u =>
        cases u with
        | none => simp [RepoField.truthy, RepoField.urlOf]
        | some s =>
          have hm : githubMatch s = none := by simpa [RepoField.urlOf] using h1
          simp [RepoField.truthy, RepoField.urlOf, hm]
    rw [hman]
    cases cfg with
    | none => rfl
    | some c =>
      dsimp only
      rw [h2 c rfl]
      rfl

/-- C8, witness: a concrete non-matching manifest string with a
non-matching config yields the empty result, and the concrete GitHub URL
yields `acme`/`widgets`. -/
theorem repo_extraction_witness :
    detectGithub (RepoField.str "no match here") (some "nothing") = none ∧
    detectGithub (RepoField.str "https://github.com/acme/widgets.git") none =
      some ⟨"acme", "widgets"⟩ :=
  ⟨repo_extraction_and_totality.2 _ _ (by rfl)
    (fun c hc => by injection hc with h; rw [← h]; rfl),
   repo_extraction_and_totality.1 none⟩

/-- C9: the help-text parser discards section-header lines (they only move
the section cursor and emit no record), and a flag line under an options
or flags section emits exactly one record whose canonical name is the
first long (double-dash) alternative when one exists, otherwise the first
alternative, with the trailing text as description (`primaryName` is that
selection rule). -/
theorem helpParse_headers_and_canonical_name :
    (∀ (sec : Option String) (line : List Nat),
        isSectionHeaderLine (trimCodes line) = true →
        (helpLineStep sec line).2 = ([], [])) ∧
    ∀ (sec : Option String) (line g1 d : List Nat),
      (sec = some "options" ∨ sec = some "flags") →
      flagLineMatch line = some (g1, d) →
      (helpLineStep sec line).2 =
        ([], [(primaryName ((splitOn 44 g1).map (fun p => ofCodes (trimCodes p))),
               ofCodes d)]) := by
  constructor
  · intro sec line hh
    unfold helpLineStep
    rw [if_pos hh]
  · intro sec line g1 d hsec hm
    obtain ⟨u, hu⟩ := flagLineMatch_trim hm
    unfold helpLineStep
    rw [hu, if_neg (by rw [header_not_dash]; exact Bool.false_ne_true),
      if_neg (by simp)]
    rcases hsec with hsec | hsec <;> subst hsec
    · rw [if_neg (by decide), if_pos (by decide), hm]
    · rw [if_neg (by decide), if_pos (by decide), hm]

/-- C9, witness: the header line `Options:` emits nothing, and the flag
line `  -f, --force   Force it` under the options section emits the
canonical long form `--force` with description `Force it`. -/
theorem helpParse_witness :
    (helpLineStep none (codes "Options:")).2 = ([], []) ∧
    (helpLineStep (some "options") (codes "  -f, --force   Force it")).2 =
      ([], [("--force", "Force it")]) := by
  constructor
  · exact helpParse_headers_and_canonical_name.1 none (codes "Options:") (by rfl)
  · rw [helpParse_headers_and_canonical_name.2 (some "options")
      (codes "  -f, --force   Force it") (codes "-f, --force") (codes "Force it")
      (Or.inl rfl) (by rfl)]
    rfl

/-- C10: whatever the scanned source text, the static flag set never
contains `--help`, `-h`, `-`, `--`, `---` or `-1`: every candidate passes
the rejection filter, whose first list contains all six tokens, before
being added. -/
theorem static_flags_never_degenerate (code : List Nat) (t : String)
    (ht : t ∈ staticFlagsOf code) :
    t ≠ "--help" ∧ t ≠ "-h" ∧ t ≠ "-" ∧ t ≠ "--" ∧ t ≠ "---" ∧ t ≠ "-1" := by
  have h1 : t ∈ ((flagCandidates code).map
      (fun tok => ofCodes (normalizeFlag tok))).filter flagAccept := by
    rcases mem_setAddAll _ [] t ht with h | h
    · simp at h
    · exact h
  have hacc : flagAccept t = true := (List.mem_filter.mp h1).2
  refine ⟨?_, ?_, ?_, ?_, ?_, ?_⟩ <;> intro he <;> rw [he] at hacc <;>
    exact absurd hacc (by decide)

/-- C10, witness: in a text where `--help` appears literally as an operand
of an inclusion check next to `opts.force`, the scanned set contains
`--force` — and that member is none of the degenerate tokens. -/
theorem static_flags_never_degenerate_witness :
    "--force" ∈ staticFlagsOf rejectionText ∧
    ("--force" ≠ "--help" ∧ "--force" ≠ "-h" ∧ "--force" ≠ "-" ∧
      "--force" ≠ "--" ∧ "--force" ≠ "---" ∧ "--force" ≠ "-1") :=
  ⟨by decide, static_flags_never_degenerate rejectionText "--force" (by decide)⟩

end ClawReadme
